import Mathlib

/-!
Verification development for the dynamixel-scraper control-table pipeline.

The Rust sources (serialize.rs, download.rs, create_lib.rs) are shallowly
embedded below: strings are Lean strings (manipulated as lists of
characters), machine integers are naturals/integers with explicit range
checks, panics and assertion failures become error values of an explicit
error type, and fallible functions return Except.

Character-class notes: the Rust code uses regex classes [0-9] and [a-zA-Z]
(ASCII by definition) and the char methods is_alphabetic, is_alphanumeric,
is_numeric and to_uppercase, which are Unicode-aware.  The embedding models
the char methods by their ASCII fragments; every input exercised by the
claims is ASCII, where the two coincide.
-/

/-! ## Basic character and string utilities (structural, kernel-computable) -/

/-- ASCII digit, the regex class [0-9]. -/
def rustIsDigit (c : Char) : Bool :=
  48 ≤ c.toNat && c.toNat ≤ 57

/-- ASCII letter, the regex class [a-zA-Z]; also models char::is_alphabetic
on the ASCII fragment. -/
def rustIsAlphabetic (c : Char) : Bool :=
  (65 ≤ c.toNat && c.toNat ≤ 90) || (97 ≤ c.toNat && c.toNat ≤ 122)

/-- Models char::is_alphanumeric on the ASCII fragment. -/
def rustIsAlphanumeric (c : Char) : Bool :=
  rustIsAlphabetic c || rustIsDigit c

/-- Models char::is_numeric on the ASCII fragment. -/
def rustIsNumeric (c : Char) : Bool :=
  rustIsDigit c

/-- Split a character list at every occurrence of a separator character,
matching Rust str::split(char): the separators are dropped and empty pieces
are kept. -/
def splitChar (sep : Char) : List Char → List (List Char)
  | [] => [[]]
  | c :: rest =>
    match splitChar sep rest with
    | [] => [[]]
    | h :: t => if c = sep then [] :: h :: t else (c :: h) :: t

/-- Numeric value of a digit string (no sign handling). -/
def digitsVal (l : List Char) : Nat :=
  l.foldl (fun n c => n * 10 + (c.toNat - 48)) 0

/-- Errors of the embedded pipeline.  Panics and failed assertions in the
Rust source are modelled as distinguished error values. -/
inductive Err where
  | assertBothMatch
  | assertNeitherMatch
  | unreachablePanic
  | panicUnwrap
  | panicIndex
  | panicUnknownAccess (token : String)
  | parseIntError
  | headerMismatch
  deriving DecidableEq, Repr

instance {ε α : Type} [DecidableEq ε] [DecidableEq α] : DecidableEq (Except ε α) :=
  fun x y =>
    match x, y with
    | .ok a, .ok b =>
      if h : a = b then .isTrue (h ▸ rfl)
      else .isFalse (fun hh => h (Except.ok.inj hh))
    | .error e, .error f =>
      if h : e = f then .isTrue (h ▸ rfl)
      else .isFalse (fun hh => h (Except.error.inj hh))
    | .ok _, .error _ => .isFalse (fun hh => Except.noConfusion hh)
    | .error _, .ok _ => .isFalse (fun hh => Except.noConfusion hh)

/-- Models str::parse for an unsigned integer type with maximum value
max: an optional leading plus sign, then one or more ASCII digits, with an
overflow check. -/
def parseUnsigned (max : Nat) (l : List Char) : Except Err Nat :=
  let digits := match l with
    | '+' :: rest => rest
    | other => other
  if digits.isEmpty then .error .parseIntError
  else if digits.all rustIsDigit then
    let v := digitsVal digits
    if v ≤ max then .ok v else .error .parseIntError
  else .error .parseIntError

/-- Models str::parse::<i32>: an optional sign, then one or more ASCII
digits, with a two's-complement range check. -/
def parseI32 (l : List Char) : Except Err Int :=
  let (neg, digits) : Bool × List Char := match l with
    | '-' :: rest => (true, rest)
    | '+' :: rest => (false, rest)
    | other => (false, other)
  if digits.isEmpty then .error .parseIntError
  else if digits.all rustIsDigit then
    let v : Int := Int.ofNat (digitsVal digits)
    let v := if neg then -v else v
    if -2147483648 ≤ v ∧ v ≤ 2147483647 then .ok v else .error .parseIntError
  else .error .parseIntError

/-! ## serialize.rs: data model -/

/-- The levels of permission granted for a control-table item
(serialize.rs AccessLevel).  There is no Write variant in the source. -/
inductive AccessLevel where
  | Read
  | ReadWrite
  deriving DecidableEq, Repr

/-- serialize.rs RangeValue: a literal integer bound or a bound referring to
another field by name. -/
inductive RangeValue where
  | Integer (i : Int)
  | Address (name : String) (negative : Bool)
  deriving DecidableEq, Repr

/-- serialize.rs ControlTableData. -/
structure ControlTableData where
  address : Nat
  size : Nat
  data_name : Option String
  description : Option String
  access : AccessLevel
  initial_value : Option RangeValue
  range : Option (RangeValue × RangeValue)
  units : Option String
  deriving DecidableEq, Repr

/-! ## serialize.rs: the range-value grammar (RangeValue::new) -/

/-- The optional leading minus sign shared by both regexes. -/
def stripMinus (l : List Char) : List Char :=
  match l with
  | '-' :: rest => rest
  | other => other

/-- The anchored regex ^-?[0-9]+$ (INTEGER_RE). -/
def integerMatch (l : List Char) : Bool :=
  let t := stripMinus l
  !t.isEmpty && t.all rustIsDigit

/-- The anchored regex ^-?([a-zA-Z]+)[0-9]*$ (ADDRESS_RE). -/
def addressMatch (l : List Char) : Bool :=
  let t := stripMinus l
  let letters := t.takeWhile rustIsAlphabetic
  let rest := t.dropWhile rustIsAlphabetic
  !letters.isEmpty && rest.all rustIsDigit

/-- The character sequence of a string (str::chars). -/
def strChars (s : String) : List Char :=
  s.toList

/-- The comma-stripping of RangeValue::new. -/
def commaFree (l : List Char) : List Char :=
  l.filter (fun c => c ≠ ',')

/-- serialize.rs RangeValue::new.  Commas are filtered out, then the text
must match exactly one of the two anchored regexes; the two assert!
statements and the trailing panic! are modelled as error values.  Because
both regexes are anchored, capture group 0 is the whole filtered text. -/
def RangeValue.new (text : String) : Except Err RangeValue :=
  let filtered : List Char := commaFree (strChars text)
  let address_matches : Option (List Char) :=
    if addressMatch filtered then some filtered else none
  let integer_matches : Option (List Char) :=
    if integerMatch filtered then some filtered else none
  if !(address_matches.isNone || integer_matches.isNone) then
    .error .assertBothMatch
  else if !(address_matches.isSome || integer_matches.isSome) then
    .error .assertNeitherMatch
  else
    match address_matches, integer_matches with
    | some captured, _ =>
      let negative : Bool := decide (captured.head? = some '-')
      let name := captured.filter rustIsAlphabetic
      .ok (.Address (String.mk name) negative)
    | none, some num => (parseI32 num).map RangeValue.Integer
    | none, none => .error .unreachablePanic

/-! ## serialize.rs: parse_servo -/

/-- The placeholder glyphs of parse_servo's bad_chars vector: period, dash,
space, horizontal ellipsis, tilde, non-breaking space. -/
def bad_chars : List Char :=
  ['.', '-', ' ', Char.ofNat 0x2026, '~', Char.ofNat 0xa0]

/-- A cell is absent when every character is a placeholder glyph (true for
the empty cell, as in the source). -/
def toOptLine (line : List String) : List (Option String) :=
  line.map (fun col =>
    if (strChars col).all (fun c => bad_chars.contains c) then none
    else some col)

/-- The literal text of INDERECT_RE up to the alternation. -/
def indirectAddressPat : List Char := "Indirect Address ".toList

def indirectDataPat : List Char := "Indirect Data ".toList

/-- The alternation (?:N|[0-9]*) of INDERECT_RE: leftmost-first, so a
literal N is preferred, otherwise greedily as many digits as possible
(possibly none). -/
def indirectIdxPart (rest : List Char) : List Char :=
  match rest with
  | 'N' :: _ => ['N']
  | other => other.takeWhile rustIsDigit

/-- A match of INDERECT_RE starting exactly at the head of the list. -/
def indirectAt (s : List Char) : Option (List Char) :=
  if indirectAddressPat.isPrefixOf s then
    some (indirectAddressPat ++ indirectIdxPart (s.drop indirectAddressPat.length))
  else if indirectDataPat.isPrefixOf s then
    some (indirectDataPat ++ indirectIdxPart (s.drop indirectDataPat.length))
  else none

/-- Unanchored leftmost search with INDERECT_RE
(Regex::captures); returns capture group 0, the whole match. -/
def findIndirect : List Char → Option (List Char)
  | [] => none
  | c :: rest =>
    match indirectAt (c :: rest) with
    | some m => some m
    | none => findIndirect rest

/-- Concatenation of a row's cells, as in
line.clone().into_iter().collect::<String>(). -/
def concatCells (line : List String) : List Char :=
  (line.map strChars).flatten

/-- State of parse_servo's first loop: retained rows (reversed), and the
lowest/highest indirect index trackers. -/
structure ScanState where
  lines : List (List (Option String))
  lowest : Option Nat
  highest : Option Nat

/-- One iteration of parse_servo's first loop over a data row. -/
def scanStep (st : ScanState) (line : List String) : Except Err ScanState := do
  let line_to_add := toOptLine line
  if line_to_add.all (fun o => o.isNone) then
    pure st
  else
    match findIndirect (concatCells line) with
    | some current_match =>
      if !(current_match.all rustIsNumeric) then
        pure st
      else do
        let current_value ← parseUnsigned 4294967295 current_match
        let lowest :=
          if st.lowest.getD 4294967295 > current_value then some current_value
          else st.lowest
        let highest :=
          if st.highest.getD 0 < current_value then some current_value
          else st.highest
        pure { st with lowest := lowest, highest := highest }
    | none => pure { st with lines := line_to_add :: st.lines }

/-- parse_servo's first loop over all data rows (the header row is
skipped by the caller). -/
def scanRows (rows : List (List String)) : Except Err ScanState :=
  rows.foldlM scanStep ⟨[], none, none⟩

/-- HashMap::insert on an association list: replaces the value of an
existing key in place, otherwise appends. -/
def hashInsert : List (String × Nat) → String → Nat → List (String × Nat)
  | [], k, v => [(k, v)]
  | (k', v') :: rest, k, v =>
    if k' = k then (k', v) :: rest else (k', v') :: hashInsert rest k v

/-- HashMap::get on the association list. -/
def hashGet? (m : List (String × Nat)) (k : String) : Option Nat :=
  match m.find? (fun p => p.1 = k) with
  | some p => some p.2
  | none => none

/-- parse_servo's header-name loop: one HashMap::insert per header cell, in
enumeration order starting at a given index. -/
def buildIndexesAux (m : List (String × Nat)) (i : Nat) :
    List String → List (String × Nat)
  | [] => m
  | h :: t => buildIndexesAux (hashInsert m h i) (i + 1) t

/-- parse_servo's header-name to column-index lookup. -/
def buildIndexes (headers : List String) : List (String × Nat) :=
  buildIndexesAux [] 0 headers

/-- serialize.rs try_find.  An out-of-range column index (an indexing panic
in the source, never hit by well-formed grids) is modelled as absence. -/
def try_find (indexes : List (String × Nat)) (line : List (Option String))
    (heading : String) : Option String :=
  match hashGet? indexes heading with
  | some i =>
    match line.getD i none with
    | some item => some item
    | none => none
  | none => none

/-- Models line[*indexes.get(k).unwrap()].unwrap(): a missing header, an
out-of-range index or an absent cell is a panic. -/
def getIndexed (indexes : List (String × Nat)) (line : List (Option String))
    (heading : String) : Except Err String :=
  match hashGet? indexes heading with
  | none => .error .panicUnwrap
  | some i =>
    match line.get? i with
    | none => .error .panicIndex
    | some none => .error .panicUnwrap
    | some (some s) => .ok s

/-- The access-token mapping of parse_servo (the match on the Access
cell); an unrecognized token is a panic carrying the token. -/
def parseAccess (token : String) : Except Err AccessLevel :=
  if token = "R" then .ok .Read
  else if token = "RW" then .ok .ReadWrite
  else if token = "R/RW" then .ok .ReadWrite
  else .error (.panicUnknownAccess token)

/-- The range computation of parse_servo for one retained row: either a
single cell under the Range header, required to contain exactly one tilde,
each side filtered to alphanumerics and minus signs; or separate cells
under Min and Max headers; otherwise absent. -/
def rangeFor (indexes : List (String × Nat)) (line : List (Option String)) :
    Except Err (Option (RangeValue × RangeValue)) :=
  match try_find indexes line "Range" with
  | some text =>
    if ((strChars text).count '~') = 1 then do
      let text_parts := (splitChar '~' (strChars text)).map
        (fun s => s.filter (fun c => rustIsAlphanumeric c || c = '-'))
      let min ← RangeValue.new (String.mk (text_parts.getD 0 []))
      let max ← RangeValue.new (String.mk (text_parts.getD 1 []))
      pure (some (min, max))
    else
      pure none
  | none =>
    match try_find indexes line "Min" with
    | some min_text =>
      match try_find indexes line "Max" with
      | some max_text => do
        let min ← RangeValue.new min_text
        let max ← RangeValue.new max_text
        pure (some (min, max))
      | none => pure none
    | none => pure none

/-- Construction of one ControlTableData from a retained row, in the
evaluation order of the source's struct literal. -/
def buildRecord (indexes : List (String × Nat)) (line : List (Option String)) :
    Except Err ControlTableData := do
  let range ← rangeFor indexes line
  let addrCell ← getIndexed indexes line "Address"
  let address ← parseUnsigned 65535 (strChars addrCell)
  let sizeCell ← getIndexed indexes line "Size(byte)"
  let size ← parseUnsigned 255 (strChars sizeCell)
  let data_name := try_find indexes line "Data Name"
  let description := try_find indexes line "Description"
  let accessCell ← getIndexed indexes line "Access"
  let access ← parseAccess accessCell
  let initial_value ← match try_find indexes line "Initial Value" with
    | some val =>
      (RangeValue.new (String.mk ((strChars val).filter (fun c => c ≠ ' ')))).map
        (fun v => some v)
    | none => pure none
  pure { address := address, size := size, data_name := data_name,
         description := description, access := access,
         initial_value := initial_value, range := range, units := none }

/-- Result of parse_servo together with the internal indirect-index
trackers (local variables of the source, dropped by its return). -/
structure ParseServoResult where
  data : List ControlTableData
  lowest : Option Nat
  highest : Option Nat
  deriving DecidableEq, Repr

/-- serialize.rs parse_servo, additionally exposing the final values of its
lowest_address/highest_address locals.  Indexing servo[0] of an empty grid
is a panic. -/
def parse_servo_full (servo : List (List String)) :
    Except Err ParseServoResult := do
  match servo with
  | [] => .error .panicIndex
  | header :: rows =>
    let st ← scanRows rows
    let indexes := buildIndexes header
    let data ← (st.lines.reverse).mapM (buildRecord indexes)
    pure ⟨data, st.lowest, st.highest⟩

/-- serialize.rs parse_servo (the source's actual return value). -/
def parse_servo (servo : List (List String)) :
    Except Err (List ControlTableData) :=
  (parse_servo_full servo).map (fun r => r.data)

/-! ## download.rs: table extraction output and merge_tables

The HTML selection and positional cell chunking of parse_table consume raw
markup and are outside the embedding; a table extracted by parse_table is
modelled by its output: a list of header cells (title-cased heading texts)
and a list of complete body-row lines.  The textual CSV form the source
manipulates is reconstructed faithfully, character for character, and
merge_tables operates on that text exactly as the source does: it compares
the first line of each CSV and concatenates.  Strings are represented as
character lists in this section. -/

structure CsvTable where
  header : List (List Char)
  rows : List (List Char)

/-- The heading loop of parse_table: a separator is pushed only when the
accumulated text is nonempty. -/
def headerLineCL (cells : List (List Char)) : List Char :=
  cells.foldl
    (fun csv text => (if csv.isEmpty then csv else csv ++ [',', ' ']) ++ text) []

/-- Completed body rows, each terminated by a newline, as pushed by
parse_table's body loop. -/
def unlinesCL : List (List Char) → List Char
  | [] => []
  | r :: rest => r ++ '\n' :: unlinesCL rest

/-- The CSV text produced by parse_table. -/
def csvOf (t : CsvTable) : List Char :=
  headerLineCL t.header ++ '\n' :: unlinesCL t.rows

/-- Rust slice join with a newline separator (no trailing newline). -/
def joinNlCL : List (List Char) → List Char
  | [] => []
  | [a] => a
  | a :: b :: rest => a ++ '\n' :: joinNlCL (b :: rest)

/-- Rust str::lines: split on newline, dropping one trailing empty piece.
Carriage-return stripping is not modelled (no input here contains one). -/
def rustLinesCL (s : List Char) : List (List Char) :=
  let ps := splitChar '\n' s
  if ps.getLast? = some [] then ps.dropLast else ps

/-- download.rs merge_tables from the point where both tables have been
extracted: assert the first CSV lines equal (a failed assert_eq is the
HeaderMismatch failure), then append the second table's remaining lines. -/
def merge_tables (eeprom ram : CsvTable) : Except Err (List Char) :=
  let e := csvOf eeprom
  let r := csvOf ram
  if (rustLinesCL e).head? = (rustLinesCL r).head? then
    .ok (e ++ joinNlCL ((rustLinesCL r).drop 1))
  else
    .error .headerMismatch

/-! ## create_lib.rs: aggregation and code generation -/

/-- Byte-order comparison of two character lists (UTF-8 byte order agrees
with code-point order, so this models Rust String's Ord). -/
def cmpCL : List Char → List Char → Ordering
  | [], [] => .eq
  | [], _ :: _ => .lt
  | _ :: _, [] => .gt
  | a :: as, b :: bs =>
    if a.toNat < b.toNat then .lt
    else if b.toNat < a.toNat then .gt
    else cmpCL as bs

/-- Rust String's total order, as a boolean less-or-equal. -/
def strLeB (a b : String) : Bool :=
  match cmpCL (strChars a) (strChars b) with
  | .gt => false
  | _ => true

/-- BTreeMap modelled as an association list sorted by key; insert replaces
the value of an existing key. -/
def tmInsert {α : Type} (k : String) (v : α) :
    List (String × α) → List (String × α)
  | [] => [(k, v)]
  | (k', v') :: rest =>
    match cmpCL (strChars k) (strChars k') with
    | .lt => (k, v) :: (k', v') :: rest
    | .eq => (k, v) :: rest
    | .gt => (k', v') :: tmInsert k v rest

/-- BTreeMap::get. -/
def tmGet? {α : Type} (m : List (String × α)) (k : String) : Option α :=
  match m.find? (fun p => p.1 = k) with
  | some p => some p.2
  | none => none

/-- Stable insertion used by sortLe. -/
def insertLe {α : Type} (le : α → α → Bool) (a : α) : List α → List α
  | [] => [a]
  | b :: bs => if le a b then a :: b :: bs else b :: insertLe le a bs

/-- Stable sort (models Rust's stable Vec::sort/sort_by). -/
def sortLe {α : Type} (le : α → α → Bool) : List α → List α
  | [] => []
  | a :: as => insertLe le a (sortLe le as)

/-- Rust Vec::dedup: removes consecutive repeated elements. -/
def rustDedup {α : Type} [DecidableEq α] : List α → List α
  | [] => []
  | [a] => [a]
  | a :: b :: rest =>
    if a = b then rustDedup (b :: rest) else a :: rustDedup (b :: rest)

def digitChar (n : Nat) : Char := Char.ofNat (48 + n)

def natDecAux : Nat → Nat → List Char
  | 0, _ => []
  | fuel + 1, n =>
    if n < 10 then [digitChar n]
    else natDecAux fuel (n / 10) ++ [digitChar (n % 10)]

/-- Decimal rendering of a natural number. -/
def natDec (n : Nat) : String := String.mk (natDecAux (n + 1) n)

/-- Decimal rendering of an integer. -/
def intDec (i : Int) : String :=
  if i < 0 then String.mk ('-' :: natDecAux (-i).toNat.succ (-i).toNat)
  else natDec i.toNat

/-- Fuel-indexed non-overlapping left-to-right replacement; with fuel at
least the length of the text this is Rust str::replace. -/
def replaceFuel (pat rep : List Char) : Nat → List Char → List Char
  | _, [] => []
  | 0, c :: rest => c :: rest
  | fuel + 1, c :: rest =>
    if pat.isPrefixOf (c :: rest) then
      rep ++ replaceFuel pat rep fuel (List.drop pat.length (c :: rest))
    else
      c :: replaceFuel pat rep fuel rest

/-- Rust str::replace. -/
def rustReplace (s pat rep : String) : String :=
  String.mk (replaceFuel pat.toList rep.toList s.toList.length s.toList)

/-- create_lib.rs fix_formatting. -/
def fix_formatting (text : String) : String :=
  rustReplace (rustReplace text "Read," "AccessLevel::Read,")
    "ReadWrite," "AccessLevel::ReadWrite,"

/-- Debug escaping of a string (quote and backslash; other escapes are not
exercised by any input here). -/
def rustEscape (s : String) : String :=
  String.mk ((s.toList.map
    (fun c =>
      if c = '"' then ['\\', '"']
      else if c = '\\' then ['\\', '\\']
      else [c])).flatten)

/-- Debug formatting of an optional string. -/
def debugOptStr : Option String → String
  | none => "None"
  | some s => "Some(\"" ++ rustEscape s ++ "\")"

/-- Derived Debug formatting of AccessLevel. -/
def debugAccess : AccessLevel → String
  | .Read => "Read"
  | .ReadWrite => "ReadWrite"

/-- Modelled from the spec: the Display rendering of a RangeValue, used
when full-record mode reconstructs initial values and ranges as literal
expressions.  The repository's Display impl for RangeValue is not among
the provided sources; no claim below depends on this rendering's exact
text. -/
def RangeValue.display : RangeValue → String
  | .Integer i => "RangeValue::Integer(" ++ intDec i ++ ")"
  | .Address name negative =>
    "RangeValue::Address \x7b name: DataName::" ++ name ++ ", negative: " ++
      (if negative then "true" else "false") ++ " \x7d"

/-- main.rs Actuator. -/
structure Actuator where
  series : String
  raw_name : String
  name : String
  data : List ControlTableData
  deriving DecidableEq, Repr

/-- str::to_uppercase, modelled on its ASCII fragment. -/
def upperStr (s : String) : String := String.mk (s.toList.map Char.toUpper)

/-- The pascal_name sanitization of create_lib: alphabetic characters
only. -/
def sanitizeName (s : String) : String :=
  String.mk (s.toList.filter rustIsAlphabetic)

/-- The derived model identifier: position of the first alphabetic
character (unwrap panics when there is none), then the alphanumeric
characters with that many dropped, upper-cased. -/
def deviceModel (d : Actuator) : Except Err String :=
  match d.raw_name.toList.findIdx? (fun c => rustIsAlphabetic c) with
  | none => .error .panicUnwrap
  | some first_letter =>
    .ok (String.mk
      (((d.raw_name.toList.filter rustIsAlphanumeric).drop first_letter).map
        Char.toUpper))

abbrev InnerMap := List (String × ControlTableData)
abbrev MidMap := List (String × InnerMap)
abbrev OuterMap := List (String × MidMap)

/-- The body of create_lib's row loop for one device: a row with a data
name contributes its sanitized name to data_names and is inserted into the
device's model entry (last write wins). -/
def rowStep (model : String) (acc : MidMap × List String)
    (row : ControlTableData) : MidMap × List String :=
  match row.data_name with
  | some name =>
    let pascal_name := sanitizeName name
    let names := (tmGet? acc.1 model).getD []
    (tmInsert model (tmInsert pascal_name row names) acc.1,
      acc.2 ++ [pascal_name])
  | none => acc

/-- The body of create_lib's device loop: derive series and model, then
fold the device's rows into the series entry. -/
def aggStep (st : OuterMap × List String) (dxl : Actuator) :
    Except Err (OuterMap × List String) := do
  let series := upperStr dxl.series
  let model ← deviceModel dxl
  let models0 := (tmGet? st.1 series).getD []
  let folded := dxl.data.foldl (rowStep model) (models0, st.2)
  pure (tmInsert series folded.1 st.1, folded.2)

/-- create_lib's aggregation pass: the nested series → model → field map
together with the raw data-name list. -/
def aggregate (servos : List Actuator) :
    Except Err (OuterMap × List String) :=
  servos.foldlM aggStep ([], [])

def CARGO_PREAMBLE : String :=
  "[package]\nname = \"dxl-control-tables\"\nversion = \"0.1.0\"\nedition = \"2018\"\n\n[dependencies]\nthiserror = \"1.0.26\"\n\n[features]\n"

def ERROR_DEFINITION : String :=
  "use thiserror::Error;\n\n#[derive(Error, Debug)]\npub enum ControlTableError \x7b\n    #[error(\"Dynamixel model \x7bmodel:?\x7d does not support field \x7bname:?\x7d\")]\n    NoMatchingAddress \x7b model: Model, name: DataName \x7d,\n\x7d\n\n"

def CONTROL_TABLE_DATA : String :=
  "/// The levels of permission a user is granted in terms of an item in the\n/// control table.\n#[derive(Debug)]\npub enum AccessLevel \x7b\n    Read,\n    ReadWrite,\n\x7d\n\n/// An item that represents either the min, max, or initial value of a given address\n#[derive(Debug)]\npub enum RangeValue \x7b\n    Integer(i32),\n    Address \x7b name: DataName, negative: bool \x7d,\n\x7d\n\n/// A representation of an item in the control table, where only information\n/// is stored. When applicable, items in the control table are represented in\n/// this format, along with any optional data such as range or description.\n#[derive(Debug)]\npub struct ControlTableData \x7b\n    pub address: u16,\n    pub size: u8,\n    pub description: Option<&'static str>,\n    pub access: AccessLevel,\n    pub initial_value: Option<RangeValue>,\n    pub range: Option<(RangeValue, RangeValue)>,\n\x7d\n\n"

def DERIVES : String := "#[derive(Clone, Copy, Debug)]"

def INDENT : String := "    "

/-- INDENT.repeat(n). -/
def repStr (s : String) (n : Nat) : String :=
  String.mk ((List.replicate n s.toList).flatten)

/-- Rust slice join with an arbitrary separator. -/
def joinStrSep (sep : String) : List String → String
  | [] => ""
  | [a] => a
  | a :: b :: rest => a ++ sep ++ joinStrSep sep (b :: rest)

/-- The generated match arm for one (field name, record) pair. -/
def armText (p : String × ControlTableData) : String :=
  "\n" ++ repStr INDENT 3 ++ "DataName::" ++ p.1 ++
    " => Ok(ControlTableData \x7b" ++
  fix_formatting ("\n" ++ repStr INDENT 4 ++ "address: " ++
    natDec p.2.address ++ ",") ++
  fix_formatting ("\n" ++ repStr INDENT 4 ++ "size: " ++
    natDec p.2.size ++ ",") ++
  fix_formatting ("\n" ++ repStr INDENT 4 ++ "description: " ++
    debugOptStr p.2.description ++ ",") ++
  fix_formatting ("\n" ++ repStr INDENT 4 ++ "access: " ++
    debugAccess p.2.access ++ ",") ++
  "\n" ++ repStr INDENT 4 ++ "initial_value: " ++
    (match p.2.initial_value with
     | some val => "Some(" ++ val.display ++ ")"
     | none => "None") ++ "," ++
  "\n" ++ repStr INDENT 4 ++ "range: " ++
    (match p.2.range with
     | some val => "Some((" ++ val.1.display ++ ", " ++ val.2.display ++ "))"
     | none => "None") ++ "," ++
  "\n" ++ repStr INDENT 3 ++ "\x7d),"

/-- The address-ascending comparison of create_lib's sort_by closure. -/
def addrLe (x y : String × ControlTableData) : Bool :=
  x.2.address ≤ y.2.address

/-- The match arms of one model, sorted lowest address first (stable, so
ties stay in key order). -/
def sortedArms (names : InnerMap) : InnerMap := sortLe addrLe names

/-- The generated match-on-name block for one model of one series. -/
def modelText (series model : String) (names : InnerMap) : String :=
  "\n" ++ repStr INDENT 2 ++ "#[cfg(feature = \"" ++ series ++ "\")]" ++
  "\n" ++ repStr INDENT 2 ++ "Model::" ++ model ++ " => match name \x7b" ++
  String.join ((sortedArms names).map armText) ++
  "\n" ++ repStr INDENT 3 ++
    "_ => Err(ControlTableError::NoMatchingAddress \x7b model, name \x7d)," ++
  "\n" ++ repStr INDENT 2 ++ "\x7d,"

/-- The main generation loop over the aggregated map: per series a cargo
feature line, per model a match block. -/
def mainLoop (addresses : OuterMap) : String × String :=
  addresses.foldl
    (fun acc p =>
      (p.2.foldl (fun lib q => lib ++ modelText p.1 q.1 q.2) acc.1,
        acc.2 ++ "\n" ++ p.1 ++ " = []"))
    ("", "")

/-- The feature-gated Model enum body. -/
def modelEnumText (addresses : OuterMap) : String :=
  addresses.foldl
    (fun acc p =>
      p.2.foldl
        (fun acc2 q =>
          acc2 ++ INDENT ++ "#[cfg(feature = \"" ++ p.1 ++ "\")]\n" ++
            INDENT ++ q.1 ++ ",\n")
        acc)
    ""

/-- The rendering pass of create_lib: a pure function of the aggregation
result, producing the generated library source and manifest texts. -/
def renderOut (agg : OuterMap × List String) : String × String :=
  let addresses := agg.1
  let data_names := rustDedup (sortLe strLeB agg.2)
  let cargo0 := CARGO_PREAMBLE ++ "default = [" ++
    joinStrSep ", " (addresses.map (fun p => "\"" ++ p.1 ++ "\"")) ++ "]"
  let lib0 := ERROR_DEFINITION ++ CONTROL_TABLE_DATA ++
    DERIVES ++ "\npub enum DataName \x7b\n    " ++
    joinStrSep ",\n    " data_names ++ ",\n\x7d\n\n" ++
    DERIVES ++ "\npub enum Model \x7b\n" ++ modelEnumText addresses ++
    "\x7d\n" ++
    "\npub const fn data(model: Model, name: DataName) -> Result<ControlTableData, ControlTableError> \x7b" ++
    "\n" ++ INDENT ++ "match model \x7b"
  let bodies := mainLoop addresses
  (lib0 ++ bodies.1 ++ "\n" ++ INDENT ++ "\x7d" ++ "\n\x7d\n",
    cargo0 ++ bodies.2 ++ "\n")

/-- create_lib.rs create_lib: the generated library source and manifest
texts (file writing is outside the embedding). -/
def createLib (servos : List Actuator) : Except Err (String × String) :=
  (aggregate servos).map renderOut

/-! ## Definitions used by particular claims -/

/-- The last index at which a header name occurs (specification-side
function for the duplicate-header behaviour). -/
def lastIdxOfAux (k : String) (i : Nat) : List String → Option Nat
  | [] => none
  | h :: t =>
    match lastIdxOfAux k (i + 1) t with
    | some j => some j
    | none => if h = k then some i else none

def lastIdxOf (k : String) (headers : List String) : Option Nat :=
  lastIdxOfAux k 0 headers

/-- A minimal merged grid with one data row whose Access cell is the given
token. -/
def accessGrid (t : String) : List (List String) :=
  [["Address", "Size(byte)", "Access"], ["0", "1", t]]

/-- The merged grid of the spec's normalization scenario. -/
def grid6 : List (List String) :=
  [["Address", "Size(byte)", "Data Name", "Description", "Access"],
   ["0", "1", "Model Number", "Model number", "R"]]

/-- A merged grid whose Range cell is the spec's range scenario. -/
def grid8 : List (List String) :=
  [["Address", "Size(byte)", "Access", "Range"],
   ["0", "1", "R", "0 ~ 1,023"]]

/-- A single-cell row of the indirect-address family. -/
def indirectRow (i : Nat) : List String :=
  ["Indirect Address " ++ natDec i]

/-- A grid with rows Indirect Address 1 through 28 interleaved with two
normal rows. -/
def grid2 : List (List String) :=
  [["Address", "Size(byte)", "Access"]] ++
    (List.range 14).map (fun i => indirectRow (i + 1)) ++
    [["0", "1", "R"]] ++
    (List.range 14).map (fun i => indirectRow (i + 15)) ++
    [["1", "1", "RW"]]

def recFoo5 : ControlTableData :=
  { address := 5, size := 1, data_name := some "Foo", description := none,
    access := .Read, initial_value := none, range := none, units := none }

def recFoo7 : ControlTableData :=
  { address := 7, size := 1, data_name := some "Foo", description := none,
    access := .Read, initial_value := none, range := none, units := none }

/-- Two devices that collide on the derived key (series AX, model AX12A)
but disagree on the Foo record. -/
def devA : Actuator :=
  { series := "ax", raw_name := "ax-12a", name := "AX-12A", data := [recFoo5] }

def devB : Actuator :=
  { series := "ax", raw_name := "ax12a", name := "AX-12A v2", data := [recFoo7] }

/-- Two devices with distinct derived keys. -/
def devC : Actuator :=
  { series := "ax", raw_name := "ax-12a", name := "AX-12A", data := [recFoo5] }

def devD : Actuator :=
  { series := "mx", raw_name := "mx-28", name := "MX-28", data := [recFoo7] }

/-- A projection of the generated library text used to separate the two
orders of the colliding device pair. -/
def libTail (r : Except Err (String × String)) : List Char :=
  match r with
  | .ok p => p.1.toList.drop 1450
  | .error _ => []

/-- The derived (series, model) key of a device, when the model is
derivable. -/
def deviceKeyOpt (d : Actuator) : Option (String × String) :=
  match deviceModel d with
  | .ok m => some (upperStr d.series, m)
  | .error _ => none

/-- The map-only part of the row loop. -/
def rowStepM (model : String) (m : MidMap) (row : ControlTableData) : MidMap :=
  match row.data_name with
  | some name =>
    tmInsert model
      (tmInsert (sanitizeName name) row ((tmGet? m model).getD [])) m
  | none => m

/-- The sanitized data names contributed by one device, in row order. -/
def deviceNames (d : Actuator) : List String :=
  d.data.filterMap (fun row => row.data_name.map sanitizeName)

/-- The map-only part of the device loop (identity on the unreachable
missing-model branch). -/
def devStepM (A : OuterMap) (d : Actuator) : OuterMap :=
  match deviceModel d with
  | .error _ => A
  | .ok model =>
    tmInsert (upperStr d.series)
      (d.data.foldl (rowStepM model) ((tmGet? A (upperStr d.series)).getD []))
      A

/-- Specification-side join of comma-free header cells with a comma-space
separator. -/
def joinCs : List (List Char) → List Char
  | [] => []
  | [a] => a
  | a :: b :: rest => a ++ ',' :: ' ' :: joinCs (b :: rest)

/-- The tail of joinCs: every cell preceded by a comma-space separator. -/
def tailJoin : List (List Char) → List Char
  | [] => []
  | a :: rest => ',' :: ' ' :: a ++ tailJoin rest

/-! ## Shared lemmas -/

theorem digit_not_alphabetic {c : Char} (h : rustIsDigit c = true) :
    rustIsAlphabetic c = false := by
  simp only [rustIsDigit, rustIsAlphabetic, Bool.and_eq_true, Bool.or_eq_false_iff,
    Bool.and_eq_false_iff, decide_eq_true_eq, decide_eq_false_iff_not, not_le] at h ⊢
  omega

theorem integer_address_exclusive (l : List Char) :
    integerMatch l = true → addressMatch l = false := by
  intro hint
  simp only [integerMatch, Bool.and_eq_true, Bool.not_eq_true'] at hint
  obtain ⟨hne, hall⟩ := hint
  simp only [addressMatch, Bool.and_eq_false_iff, Bool.not_eq_true']
  left
  cases ht : stripMinus l with
  | nil => rw [ht] at hne; simp at hne
  | cons c rest =>
    rw [ht] at hall
    simp only [List.all_eq_true] at hall
    have hd : rustIsDigit c = true := hall c (List.mem_cons_self c rest)
    simp [List.takeWhile, digit_not_alphabetic hd]

theorem parseI32_ok_or_parse_error (l : List Char) :
    (∃ v, parseI32 l = .ok v) ∨ parseI32 l = .error .parseIntError := by
  unfold parseI32
  repeat' split
  all_goals try dsimp only
  all_goals repeat' split
  all_goals first
    | (left; exact ⟨_, rfl⟩)
    | (right; rfl)

theorem rvnew_addr (t : String)
    (ha : addressMatch (commaFree (strChars t)) = true) :
    RangeValue.new t =
      .ok (.Address
        (String.mk ((commaFree (strChars t)).filter rustIsAlphabetic))
        (decide ((commaFree (strChars t)).head? = some '-'))) := by
  have hi : integerMatch (commaFree (strChars t)) = false := by
    cases hi : integerMatch (commaFree (strChars t)) with
    | false => rfl
    | true => rw [integer_address_exclusive _ hi] at ha; exact absurd ha (by simp)
  unfold RangeValue.new
  simp [ha, hi]

theorem rvnew_int (t : String)
    (hi : integerMatch (commaFree (strChars t)) = true) :
    RangeValue.new t = (parseI32 (commaFree (strChars t))).map RangeValue.Integer := by
  have ha := integer_address_exclusive _ hi
  unfold RangeValue.new
  simp [ha, hi]

theorem rvnew_neither (t : String)
    (ha : addressMatch (commaFree (strChars t)) = false)
    (hi : integerMatch (commaFree (strChars t)) = false) :
    RangeValue.new t = .error .assertNeitherMatch := by
  unfold RangeValue.new
  simp [ha, hi]

/-! ## C5: the range-value grammar -/

/-- C5: after stripping commas, a range-value token must match exactly one
of the integer pattern or the symbolic pattern; matching both or neither is
a fatal error; a symbolic match keeps the letters as the referenced field
name and records a leading minus as negated, so "-PWMLimit36" parses to the
symbolic value with field name "PWMLimit" and negated true. -/
theorem c5_range_value_grammar (t : String) :
    (addressMatch (commaFree (strChars t)) = true →
      integerMatch (commaFree (strChars t)) = true →
      RangeValue.new t = .error .assertBothMatch) ∧
    (addressMatch (commaFree (strChars t)) = false →
      integerMatch (commaFree (strChars t)) = false →
      RangeValue.new t = .error .assertNeitherMatch) ∧
    (addressMatch (commaFree (strChars t)) = true →
      RangeValue.new t =
        .ok (.Address
          (String.mk ((commaFree (strChars t)).filter rustIsAlphabetic))
          (decide ((commaFree (strChars t)).head? = some '-')))) ∧
    RangeValue.new "-PWMLimit36" = .ok (.Address "PWMLimit" true) := by
  refine ⟨?_, ?_, ?_, by decide⟩
  · intro ha hi
    rw [integer_address_exclusive _ hi] at ha
    exact absurd ha (by simp)
  · intro ha hi
    exact rvnew_neither t ha hi
  · intro ha
    exact rvnew_addr t ha

/-- Witness for C5 at the spec's scenario token. -/
theorem c5_range_value_grammar_witness :
    addressMatch (commaFree (strChars "-PWMLimit36")) = true ∧
    RangeValue.new "-PWMLimit36" =
      .ok (.Address
        (String.mk ((commaFree (strChars "-PWMLimit36")).filter rustIsAlphabetic))
        (decide ((commaFree (strChars "-PWMLimit36")).head? = some '-'))) :=
  ⟨by decide, (c5_range_value_grammar "-PWMLimit36").2.2.1 (by decide)⟩

/-! ## C10: mutual exclusivity of the two range patterns -/

/-- C10: no token matches both the integer and the symbolic pattern, so the
ambiguity assertion never fails and the final panic is unreachable; the
parser rejects a token exactly when neither pattern matches or when integer
parsing fails the i32 range. -/
theorem c10_patterns_mutually_exclusive (t : String) :
    (addressMatch (commaFree (strChars t)) &&
      integerMatch (commaFree (strChars t))) = false ∧
    RangeValue.new t ≠ .error .assertBothMatch ∧
    RangeValue.new t ≠ .error .unreachablePanic ∧
    ((RangeValue.new t).isOk = false ↔
      (addressMatch (commaFree (strChars t)) = false ∧
        integerMatch (commaFree (strChars t)) = false) ∨
      (integerMatch (commaFree (strChars t)) = true ∧
        (parseI32 (commaFree (strChars t))).isOk = false)) := by
  have hexcl : (addressMatch (commaFree (strChars t)) &&
      integerMatch (commaFree (strChars t))) = false := by
    cases hi : integerMatch (commaFree (strChars t)) with
    | false => simp
    | true => simp [integer_address_exclusive _ hi]
  refine ⟨hexcl, ?_, ?_, ?_⟩
  · cases ha : addressMatch (commaFree (strChars t)) with
    | true => rw [rvnew_addr t ha]; simp
    | false =>
      cases hi : integerMatch (commaFree (strChars t)) with
      | true =>
        rw [rvnew_int t hi]
        rcases parseI32_ok_or_parse_error (commaFree (strChars t)) with ⟨v, hv⟩ | hv <;>
          simp [hv, Except.map]
      | false => rw [rvnew_neither t ha hi]; simp
  · cases ha : addressMatch (commaFree (strChars t)) with
    | true => rw [rvnew_addr t ha]; simp
    | false =>
      cases hi : integerMatch (commaFree (strChars t)) with
      | true =>
        rw [rvnew_int t hi]
        rcases parseI32_ok_or_parse_error (commaFree (strChars t)) with ⟨v, hv⟩ | hv <;>
          simp [hv, Except.map]
      | false => rw [rvnew_neither t ha hi]; simp
  · cases ha : addressMatch (commaFree (strChars t)) with
    | true =>
      rw [rvnew_addr t ha]
      have hi : integerMatch (commaFree (strChars t)) = false := by
        cases hi : integerMatch (commaFree (strChars t)) with
        | false => rfl
        | true => rw [integer_address_exclusive _ hi] at ha; exact absurd ha (by simp)
      simp [ha, hi, Except.isOk, Except.toBool]
    | false =>
      cases hi : integerMatch (commaFree (strChars t)) with
      | true =>
        rw [rvnew_int t hi]
        rcases parseI32_ok_or_parse_error (commaFree (strChars t)) with ⟨v, hv⟩ | hv <;>
          simp [hv, Except.map, Except.isOk, Except.toBool, ha, hi]
      | false =>
        rw [rvnew_neither t ha hi]
        simp [ha, hi, Except.isOk, Except.toBool]

/-- Witness for C10 at a rejected token: "x2y" matches neither pattern. -/
theorem c10_patterns_mutually_exclusive_witness :
    (RangeValue.new "x2y").isOk = false :=
  (c10_patterns_mutually_exclusive "x2y").2.2.2.mpr (.inl ⟨by decide, by decide⟩)

/-! ## C1: access-token normalization -/

/-- C1 counterexample: the token W is not mapped to any access level; the
code panics on it (and AccessLevel has no Write variant), contrary to the
claimed R, W, RW, R/RW mapping. -/
theorem c1_token_w_fatal :
    parse_servo (accessGrid "W") = .error (.panicUnknownAccess "W") := by
  decide

/-- C1 (amended): for a one-row grid whose access cell holds the token, the
tokens R, RW, R/RW normalize to Read, ReadWrite, ReadWrite respectively and
every other token is a fatal error carrying the token; there is no Write
mapping.  The two hypotheses state that the token is not a placeholder cell
and does not contain the indirect-row pattern, so the row is retained. -/
theorem c1_access_levels (t : String)
    (hbad : (strChars t).all (fun c => bad_chars.contains c) = false)
    (hind : findIndirect ('0' :: '1' :: strChars t) = none) :
    parse_servo (accessGrid t) =
      (parseAccess t).map (fun a =>
        [{ address := 0, size := 1, data_name := none, description := none,
           access := a, initial_value := none, range := none,
           units := none }]) ∧
    parseAccess t =
      (if t = "R" then .ok .Read
       else if t = "RW" then .ok .ReadWrite
       else if t = "R/RW" then .ok .ReadWrite
       else .error (.panicUnknownAccess t)) := by
  constructor
  · have hbad' : ¬ ∀ x ∈ strChars t, x ∈ bad_chars := by simpa using hbad
    have hconc : strChars "0" ++ (strChars "1" ++ strChars t) =
        '0' :: '1' :: strChars t := rfl
    have hR : hashGet? (buildIndexes ["Address", "Size(byte)", "Access"])
        "Range" = none := by decide
    have hMin : hashGet? (buildIndexes ["Address", "Size(byte)", "Access"])
        "Min" = none := by decide
    have hAddr : hashGet? (buildIndexes ["Address", "Size(byte)", "Access"])
        "Address" = some 0 := by decide
    have hSize : hashGet? (buildIndexes ["Address", "Size(byte)", "Access"])
        "Size(byte)" = some 1 := by decide
    have hDn : hashGet? (buildIndexes ["Address", "Size(byte)", "Access"])
        "Data Name" = none := by decide
    have hDesc : hashGet? (buildIndexes ["Address", "Size(byte)", "Access"])
        "Description" = none := by decide
    have hAcc : hashGet? (buildIndexes ["Address", "Size(byte)", "Access"])
        "Access" = some 2 := by decide
    have hInit : hashGet? (buildIndexes ["Address", "Size(byte)", "Access"])
        "Initial Value" = none := by decide
    have hP0 : parseUnsigned 65535 (strChars "0") = .ok 0 := by decide
    have hP1 : parseUnsigned 255 (strChars "1") = .ok 1 := by decide
    cases hacc : parseAccess t with
    | ok a =>
      simp +decide [parse_servo, parse_servo_full, accessGrid, scanRows,
        List.foldlM, scanStep, toOptLine, hbad', concatCells, hind,
        buildRecord, rangeFor, try_find, getIndexed, hacc, hconc,
        hR, hMin, hAddr, hSize, hDn, hDesc, hAcc, hInit, hP0, hP1,
        List.mapM, List.mapM.loop, bind, Except.bind, pure, Except.pure,
        Except.map]
    | error e =>
      simp +decide [parse_servo, parse_servo_full, accessGrid, scanRows,
        List.foldlM, scanStep, toOptLine, hbad', concatCells, hind,
        buildRecord, rangeFor, try_find, getIndexed, hacc, hconc,
        hR, hMin, hAddr, hSize, hDn, hDesc, hAcc, hInit, hP0, hP1,
        List.mapM, List.mapM.loop, bind, Except.bind, pure, Except.pure,
        Except.map]
  · rfl

/-- Witness for C1 at the token R/RW. -/
theorem c1_access_levels_witness :
    parse_servo (accessGrid "R/RW") =
      .ok [{ address := 0, size := 1, data_name := none, description := none,
             access := .ReadWrite, initial_value := none, range := none,
             units := none }] := by
  have h := (c1_access_levels "R/RW" (by decide) (by decide)).1
  rw [h]; decide

/-! ## C6: the normalization scenario -/

/-- C6 counterexample: the normalized record of the scenario grid carries
the verbatim data name with its space, not the sanitized "ModelNumber" the
claim states. -/
theorem c6_field_name_verbatim :
    parse_servo grid6 =
      .ok [{ address := 0, size := 1, data_name := some "Model Number",
             description := some "Model number", access := .Read,
             initial_value := none, range := none, units := none }] ∧
    (some "Model Number" : Option String) ≠ some "ModelNumber" := by
  constructor
  · decide
  · decide

/-- C6 (amended): the scenario grid normalizes to address 0, size 1, access
Read and the verbatim data name "Model Number"; the alphabetic-only
sanitization to "ModelNumber" is applied later, by the aggregator's
pascal_name computation. -/
theorem c6_scenario_record :
    parse_servo grid6 =
      .ok [{ address := 0, size := 1, data_name := some "Model Number",
             description := some "Model number", access := .Read,
             initial_value := none, range := none, units := none }] ∧
    sanitizeName "Model Number" = "ModelNumber" := by
  constructor
  · decide
  · decide

/-! ## C7: duplicate headers in the column lookup -/

theorem hashGet?_hashInsert (m : List (String × Nat)) (k k' : String) (v : Nat) :
    hashGet? (hashInsert m k v) k' =
      if k = k' then some v else hashGet? m k' := by
  induction m with
  | nil => by_cases h : k = k' <;> simp [hashInsert, hashGet?, List.find?, h]
  | cons p rest ih =>
    obtain ⟨a, b⟩ := p
    by_cases h1 : a = k
    · subst h1
      by_cases h2 : a = k' <;> simp [hashInsert, hashGet?, List.find?, h2]
    · by_cases h2 : a = k'
      · subst h2
        have h3 : ¬(k = a) := fun hh => h1 hh.symm
        simp [hashInsert, hashGet?, List.find?, h1, h3]
      · simp only [hashInsert, if_neg h1]
        simp only [hashGet?, List.find?] at ih ⊢
        simp [h2, ih]

theorem buildIndexesAux_get (t : List String) :
    ∀ (m : List (String × Nat)) (i : Nat) (k : String),
      hashGet? (buildIndexesAux m i t) k =
        match lastIdxOfAux k i t with
        | some j => some j
        | none => hashGet? m k := by
  induction t with
  | nil => intro m i k; simp [buildIndexesAux, lastIdxOfAux]
  | cons h rest ih =>
    intro m i k
    simp only [buildIndexesAux, lastIdxOfAux]
    rw [ih]
    cases lastIdxOfAux k (i + 1) rest with
    | some j => simp
    | none =>
      simp only [hashGet?_hashInsert]
      by_cases hk : h = k <;> simp [hk]

/-- C7 (amended): when the header row repeats a name, the header-name to
column-index lookup maps the name to the index of its last occurrence, not
its first: each header cell is inserted in order into a hash map, and
insert overwrites. -/
theorem c7_duplicate_header_last_wins :
    (∀ (headers : List String) (k : String),
      hashGet? (buildIndexes headers) k = lastIdxOf k headers) ∧
    hashGet? (buildIndexes ["Address", "X", "Address"]) "Address" = some 2 := by
  constructor
  · intro headers k
    unfold buildIndexes lastIdxOf
    rw [buildIndexesAux_get]
    cases lastIdxOfAux k 0 headers <;> simp [hashGet?]
  · decide

/-- C7 counterexample: with a duplicated header name the lookup returns the
second occurrence's index, not the first's. -/
theorem c7_first_occurrence_loses :
    hashGet? (buildIndexes ["Address", "Address"]) "Address" = some 1 ∧
    (some 1 : Option Nat) ≠ some 0 := by
  constructor
  · decide
  · decide

/-! ## C2: indirect rows are excluded, but their indices are never tracked -/

/-- C2: on a grid holding rows Indirect Address 1 through 28 interleaved
with two normal rows, the indirect rows are excluded from the record set,
but the lowest/highest trackers finish as none rather than 1 and 28: the
regex has no capture groups, so capture 0 is the whole match, whose text
always contains letters, and the all-numeric guard skips the tracking
branch on every row. -/
theorem c2_indirect_rows_excluded_trackers_dead :
    parse_servo_full grid2 =
      .ok ⟨[{ address := 0, size := 1, data_name := none, description := none,
              access := .Read, initial_value := none, range := none,
              units := none },
            { address := 1, size := 1, data_name := none, description := none,
              access := .ReadWrite, initial_value := none, range := none,
              units := none }],
           none, none⟩ := by
  decide

/-! ## C8: the range shapes -/

/-- C8: a Range cell is parsed only when it contains exactly one tilde, in
which case each side is filtered to alphanumerics and minus signs and fed
to the range-value grammar; a cell with any other number of tildes leaves
the range absent rather than failing, and so does a row offering neither
the Range shape nor the Min/Max shape; the scenario cell "0 ~ 1,023"
yields the pair (Integer 0, Integer 1023). -/
theorem c8_range_shapes (indexes : List (String × Nat))
    (line : List (Option String)) :
    (∀ text, try_find indexes line "Range" = some text →
      (((strChars text).count '~') = 1 →
        rangeFor indexes line = do
          let mn ← RangeValue.new (String.mk
            ((((splitChar '~' (strChars text)).map
              (fun s => s.filter
                (fun c => rustIsAlphanumeric c || c = '-'))).getD 0 [])))
          let mx ← RangeValue.new (String.mk
            ((((splitChar '~' (strChars text)).map
              (fun s => s.filter
                (fun c => rustIsAlphanumeric c || c = '-'))).getD 1 [])))
          pure (some (mn, mx))) ∧
      (((strChars text).count '~') ≠ 1 →
        rangeFor indexes line = .ok none)) ∧
    (try_find indexes line "Range" = none →
      try_find indexes line "Min" = none →
      rangeFor indexes line = .ok none) ∧
    (parse_servo grid8).map (fun l => l.map (fun r => r.range)) =
      .ok [some (.Integer 0, .Integer 1023)] := by
  refine ⟨?_, ?_, by decide⟩
  · intro text ht
    constructor
    · intro hcount
      unfold rangeFor
      rw [ht]
      dsimp only
      rw [if_pos hcount]
    · intro hcount
      unfold rangeFor
      rw [ht]
      dsimp only
      rw [if_neg hcount]
      rfl
  · intro hr hm
    unfold rangeFor
    rw [hr]
    dsimp only
    rw [hm]
    rfl

/-- Witness for C8 at a concrete lookup with the scenario cell. -/
theorem c8_range_shapes_witness :
    try_find [("Range", 0)] [some "0 ~ 1,023"] "Range" = some "0 ~ 1,023" ∧
    ((strChars "0 ~ 1,023").count '~') = 1 ∧
    rangeFor [("Range", 0)] [some "0 ~ 1,023"] =
      .ok (some (.Integer 0, .Integer 1023)) := by
  refine ⟨by decide, by decide, ?_⟩
  have h := ((c8_range_shapes [("Range", 0)] [some "0 ~ 1,023"]).1
    "0 ~ 1,023" (by decide)).1 (by decide)
  rw [h]; decide

/-! ## C9: match arms sorted by ascending address -/

theorem mem_insertLe {α : Type} (le : α → α → Bool) (a x : α) (l : List α) :
    x ∈ insertLe le a l ↔ x = a ∨ x ∈ l := by
  induction l with
  | nil => simp [insertLe]
  | cons b bs ih =>
    by_cases hab : le a b = true
    · simp only [insertLe, if_pos hab, List.mem_cons]
    · simp only [insertLe, if_neg hab, List.mem_cons, ih]
      tauto

theorem pairwise_insertLe {α : Type} {le : α → α → Bool}
    (htot : ∀ a b, (le a b || le b a) = true)
    (htrans : ∀ a b c, le a b = true → le b c = true → le a c = true)
    (a : α) (l : List α)
    (hl : List.Pairwise (fun x y => le x y = true) l) :
    List.Pairwise (fun x y => le x y = true) (insertLe le a l) := by
  induction l with
  | nil => simp [insertLe]
  | cons b bs ih =>
    cases hl with
    | cons hb hbs =>
      by_cases hab : le a b = true
      · rw [insertLe, if_pos hab]
        refine List.Pairwise.cons ?_ (List.Pairwise.cons hb hbs)
        intro x hx
        cases hx with
        | head => exact hab
        | tail _ hx => exact htrans a b x hab (hb x hx)
      · have hba : le b a = true := by
          have h := htot a b
          cases h2 : le a b with
          | true => exact absurd h2 hab
          | false => rw [h2] at h; simpa using h
        rw [insertLe, if_neg hab]
        refine List.Pairwise.cons ?_ (ih hbs)
        intro x hx
        rcases (mem_insertLe le a x bs).mp hx with h | h
        · rw [h]; exact hba
        · exact hb x h

theorem pairwise_sortLe {α : Type} {le : α → α → Bool}
    (htot : ∀ a b, (le a b || le b a) = true)
    (htrans : ∀ a b c, le a b = true → le b c = true → le a c = true)
    (l : List α) :
    List.Pairwise (fun x y => le x y = true) (sortLe le l) := by
  induction l with
  | nil => simp [sortLe]
  | cons a as ih => exact pairwise_insertLe htot htrans a (sortLe le as) ih

theorem insertLe_perm {α : Type} (le : α → α → Bool) (a : α) (l : List α) :
    (insertLe le a l).Perm (a :: l) := by
  induction l with
  | nil => simp [insertLe]
  | cons b bs ih =>
    by_cases hab : le a b = true
    · rw [insertLe, if_pos hab]
    · rw [insertLe, if_neg hab]
      exact (ih.cons b).trans (List.Perm.swap a b bs)

theorem sortLe_perm {α : Type} (le : α → α → Bool) (l : List α) :
    (sortLe le l).Perm l := by
  induction l with
  | nil => simp [sortLe]
  | cons a as ih => exact (insertLe_perm le a (sortLe le as)).trans (ih.cons a)

/-- C9: within each model, the emitted match arms are sorted by ascending
record address (sortedArms is the arm order used by modelText inside the
generator); on a concrete two-field model the addresses come out
ascending. -/
theorem c9_match_arms_sorted (names : InnerMap) :
    List.Pairwise (fun x y => x.2.address ≤ y.2.address) (sortedArms names) ∧
    (sortedArms [("B", recFoo7), ("A", recFoo5)]).map (fun p => p.2.address) =
      [5, 7] := by
  constructor
  · have h := @pairwise_sortLe (String × ControlTableData) addrLe
      (fun a b => by simp [addrLe]; omega)
      (fun a b c h1 h2 => by
        simp [addrLe] at h1 h2 ⊢; omega)
      names
    exact h.imp (fun hx => by simpa [addrLe] using hx)
  · decide

/-! ## C3: header equality and row concatenation in merge_tables -/

theorem splitChar_ne_nil (sep : Char) (l : List Char) :
    splitChar sep l ≠ [] := by
  cases l with
  | nil => simp [splitChar]
  | cons c rest =>
    simp only [splitChar]
    rcases h : splitChar sep rest with _ | ⟨hh, tt⟩
    · simp
    · by_cases hc : c = sep <;> simp [hc]

theorem splitChar_no_sep (sep : Char) (a : List Char) (h : sep ∉ a) :
    splitChar sep a = [a] := by
  induction a with
  | nil => rfl
  | cons c rest ih =>
    have hc : c ≠ sep := fun hh => h (hh ▸ List.mem_cons_self c rest)
    have hr : sep ∉ rest := fun hh => h (List.mem_cons_of_mem c hh)
    simp only [splitChar, ih hr]
    simp [hc]

theorem splitChar_append_sep (sep : Char) (a b : List Char) (h : sep ∉ a) :
    splitChar sep (a ++ sep :: b) = a :: splitChar sep b := by
  induction a with
  | nil =>
    simp only [List.nil_append, splitChar]
    rcases hb : splitChar sep b with _ | ⟨hh, tt⟩
    · exact absurd hb (splitChar_ne_nil sep b)
    · simp
  | cons c rest ih =>
    have hc : c ≠ sep := fun hh => h (hh ▸ List.mem_cons_self c rest)
    have hr : sep ∉ rest := fun hh => h (List.mem_cons_of_mem c hh)
    simp only [List.cons_append, splitChar, List.append_eq]
    rw [ih hr]
    simp [hc]

theorem splitChar_unlines_append (rows : List (List Char)) (tail : List Char)
    (h : ∀ r ∈ rows, ('\n' : Char) ∉ r) :
    splitChar '\n' (unlinesCL rows ++ tail) =
      rows ++ splitChar '\n' tail := by
  induction rows with
  | nil => simp [unlinesCL]
  | cons r rest ih =>
    have hr : ('\n' : Char) ∉ r := (h r (List.mem_cons_self r rest))
    have hrest : ∀ x ∈ rest, ('\n' : Char) ∉ x :=
      fun x hx => h x (List.mem_cons_of_mem r hx)
    simp only [unlinesCL, List.cons_append, List.append_assoc]
    rw [splitChar_append_sep '\n' r (unlinesCL rest ++ tail) hr, ih hrest]

theorem splitChar_joinNl (rows : List (List Char)) (hne : rows ≠ [])
    (h : ∀ r ∈ rows, ('\n' : Char) ∉ r) :
    splitChar '\n' (joinNlCL rows) = rows := by
  induction rows with
  | nil => exact absurd rfl hne
  | cons r rest ih =>
    cases rest with
    | nil =>
      exact splitChar_no_sep '\n' r (h r (List.mem_cons_self r []))
    | cons r2 rest2 =>
      have hr : ('\n' : Char) ∉ r := h r (by simp)
      have hrest : ∀ x ∈ r2 :: rest2, ('\n' : Char) ∉ x :=
        fun x hx => h x (List.mem_cons_of_mem r hx)
      simp only [joinNlCL]
      rw [splitChar_append_sep '\n' r (joinNlCL (r2 :: rest2)) hr,
        ih (by simp) hrest]

theorem joinCs_cons (a : List Char) (rest : List (List Char)) :
    joinCs (a :: rest) = a ++ tailJoin rest := by
  induction rest generalizing a with
  | nil => simp [joinCs, tailJoin]
  | cons b t ih =>
    simp only [joinCs, tailJoin, ih b]
    simp

theorem mem_tailJoin (c : Char) (l : List (List Char)) :
    c ∈ tailJoin l → c = ',' ∨ c = ' ' ∨ ∃ x ∈ l, c ∈ x := by
  induction l with
  | nil => simp [tailJoin]
  | cons a t ih =>
    intro hc
    rw [tailJoin] at hc
    rcases List.mem_cons.mp hc with h | hc2
    · exact .inl h
    rcases List.mem_cons.mp hc2 with h | hc3
    · exact .inr (.inl h)
    rcases List.mem_append.mp hc3 with h | h
    · exact .inr (.inr ⟨a, by simp, h⟩)
    · rcases ih h with h2 | h2 | ⟨x, hx, hcx⟩
      · exact .inl h2
      · exact .inr (.inl h2)
      · exact .inr (.inr ⟨x, List.mem_cons_of_mem a hx, hcx⟩)

theorem mem_joinCs (c : Char) (l : List (List Char)) :
    c ∈ joinCs l → c = ',' ∨ c = ' ' ∨ ∃ x ∈ l, c ∈ x := by
  cases l with
  | nil => simp [joinCs]
  | cons a rest =>
    rw [joinCs_cons]
    intro hc
    rcases List.mem_append.mp hc with h | h
    · exact .inr (.inr ⟨a, by simp, h⟩)
    · rcases mem_tailJoin c rest h with h2 | h2 | ⟨x, hx, hcx⟩
      · exact .inl h2
      · exact .inr (.inl h2)
      · exact .inr (.inr ⟨x, List.mem_cons_of_mem a hx, hcx⟩)

theorem headerFold_acc (cells : List (List Char)) :
    ∀ acc : List Char, acc ≠ [] →
      cells.foldl
        (fun csv text =>
          (if csv.isEmpty then csv else csv ++ [',', ' ']) ++ text) acc =
        acc ++ tailJoin cells := by
  induction cells with
  | nil => intro acc _; simp [tailJoin]
  | cons c cs ih =>
    intro acc hacc
    have hne : acc.isEmpty = false := by
      cases acc with
      | nil => exact absurd rfl hacc
      | cons _ _ => rfl
    simp only [List.foldl, hne, Bool.false_eq_true, if_false]
    rw [ih (acc ++ [',', ' '] ++ c) (by simp)]
    simp [tailJoin]

theorem headerLine_eq_joinCs (cells : List (List Char))
    (h : ∀ x ∈ cells, x ≠ []) :
    headerLineCL cells = joinCs cells := by
  cases cells with
  | nil => rfl
  | cons c cs =>
    unfold headerLineCL
    simp only [List.foldl, List.isEmpty_nil, if_true, List.nil_append]
    rw [headerFold_acc cs c (h c (by simp)), joinCs_cons]

theorem comma_split (a b c d : List Char)
    (ha : (',' : Char) ∉ a) (hc : (',' : Char) ∉ c)
    (heq : a ++ ',' :: b = c ++ ',' :: d) : a = c ∧ b = d := by
  induction a generalizing c with
  | nil =>
    cases c with
    | nil => simpa using heq
    | cons cc c' =>
      simp only [List.nil_append, List.cons_append, List.cons.injEq] at heq
      exact absurd (heq.1 ▸ List.mem_cons_self cc c') hc
  | cons ac a' ih =>
    cases c with
    | nil =>
      simp only [List.cons_append, List.nil_append, List.cons.injEq] at heq
      exact absurd (heq.1 ▸ List.mem_cons_self ac a') ha
    | cons cc c' =>
      simp only [List.cons_append, List.cons.injEq] at heq
      obtain ⟨h1, h2⟩ := heq
      have ha' : (',' : Char) ∉ a' := fun hh => ha (List.mem_cons_of_mem ac hh)
      have hc' : (',' : Char) ∉ c' := fun hh => hc (List.mem_cons_of_mem cc hh)
      obtain ⟨h3, h4⟩ := ih c' ha' hc' h2
      exact ⟨by rw [h1, h3], h4⟩

theorem joinCs_inj (l1 l2 : List (List Char))
    (h1 : ∀ x ∈ l1, x ≠ [] ∧ (',' : Char) ∉ x)
    (h2 : ∀ x ∈ l2, x ≠ [] ∧ (',' : Char) ∉ x)
    (heq : joinCs l1 = joinCs l2) : l1 = l2 := by
  induction l1 generalizing l2 with
  | nil =>
    cases l2 with
    | nil => rfl
    | cons b t2 =>
      rw [joinCs_cons] at heq
      have hb := (h2 b (by simp)).1
      cases hbv : b with
      | nil => exact absurd hbv hb
      | cons x xs => rw [hbv] at heq; simp [joinCs] at heq
  | cons a t1 ih =>
    cases l2 with
    | nil =>
      rw [joinCs_cons] at heq
      have ha := (h1 a (by simp)).1
      cases hav : a with
      | nil => exact absurd hav ha
      | cons x xs => rw [hav] at heq; simp [joinCs] at heq
    | cons b t2 =>
      cases t1 with
      | nil =>
        cases t2 with
        | nil => simp only [joinCs] at heq; rw [heq]
        | cons c2 t2' =>
          simp only [joinCs] at heq
          have : (',' : Char) ∈ (a : List Char) := by
            rw [heq]; simp
          exact absurd this (h1 a (by simp)).2
      | cons c1 t1' =>
        cases t2 with
        | nil =>
          simp only [joinCs] at heq
          have : (',' : Char) ∈ (b : List Char) := by
            rw [← heq]; simp
          exact absurd this (h2 b (by simp)).2
        | cons c2 t2' =>
          simp only [joinCs] at heq
          obtain ⟨hab, htail⟩ := comma_split a (' ' :: joinCs (c1 :: t1'))
            b (' ' :: joinCs (c2 :: t2'))
            (h1 a (by simp)).2 (h2 b (by simp)).2 heq
          have htl : joinCs (c1 :: t1') = joinCs (c2 :: t2') := by
            simpa using htail
          have := ih (c2 :: t2') (fun x hx => h1 x (List.mem_cons_of_mem a hx))
            (fun x hx => h2 x (List.mem_cons_of_mem b hx)) htl
          rw [hab, this]

theorem rustLines_csvOf (t : CsvTable)
    (hh : ('\n' : Char) ∉ headerLineCL t.header)
    (hr : ∀ r ∈ t.rows, ('\n' : Char) ∉ r) :
    rustLinesCL (csvOf t) = headerLineCL t.header :: t.rows := by
  unfold rustLinesCL csvOf
  rw [splitChar_append_sep '\n' _ _ hh]
  have h2 : splitChar '\n' (unlinesCL t.rows) = t.rows ++ [[]] := by
    have h := splitChar_unlines_append t.rows [] hr
    rw [List.append_nil] at h
    rw [h]; rfl
  rw [h2]
  have h3 : (headerLineCL t.header :: (t.rows ++ [[]])).getLast? =
      some ([] : List Char) := by
    rw [show headerLineCL t.header :: (t.rows ++ [[]]) =
      (headerLineCL t.header :: t.rows) ++ [[]] by simp]
    exact List.getLast?_concat _
  rw [if_pos h3]
  rw [show headerLineCL t.header :: (t.rows ++ [[]]) =
    (headerLineCL t.header :: t.rows) ++ [[]] by simp]
  exact List.dropLast_concat

theorem rustLines_merged (e r : CsvTable)
    (hhe : ('\n' : Char) ∉ headerLineCL e.header)
    (heR : ∀ row ∈ e.rows, ('\n' : Char) ∉ row)
    (hrR : ∀ row ∈ r.rows, row ≠ [] ∧ ('\n' : Char) ∉ row) :
    rustLinesCL (csvOf e ++ joinNlCL r.rows) =
      headerLineCL e.header :: (e.rows ++ r.rows) := by
  unfold rustLinesCL csvOf
  rw [List.append_assoc, List.cons_append,
    splitChar_append_sep '\n' _ _ hhe,
    splitChar_unlines_append e.rows (joinNlCL r.rows) heR]
  cases hrr : r.rows with
  | nil =>
    have hsplit : splitChar '\n' (joinNlCL ([] : List (List Char))) =
        [[]] := rfl
    rw [hsplit]
    have h3 : (headerLineCL e.header :: (e.rows ++ [[]])).getLast? =
        some ([] : List Char) := by
      rw [show headerLineCL e.header :: (e.rows ++ [[]]) =
        (headerLineCL e.header :: e.rows) ++ [[]] by simp]
      exact List.getLast?_concat _
    rw [if_pos h3]
    rw [show headerLineCL e.header :: (e.rows ++ [[]]) =
      (headerLineCL e.header :: e.rows) ++ [[]] by simp]
    rw [List.dropLast_concat]
    simp
  | cons r0 rrest =>
    rw [← hrr]
    have hne : r.rows ≠ [] := by rw [hrr]; simp
    rw [splitChar_joinNl r.rows hne (fun x hx => (hrR x hx).2)]
    have h4 : (headerLineCL e.header :: (e.rows ++ r.rows)).getLast? ≠
        some ([] : List Char) := by
      intro hlast
      have h5 : (headerLineCL e.header :: (e.rows ++ r.rows)).getLast? =
          r.rows.getLast?.or ((headerLineCL e.header :: e.rows).getLast?) := by
        rw [show headerLineCL e.header :: (e.rows ++ r.rows) =
          (headerLineCL e.header :: e.rows) ++ r.rows by simp]
        exact List.getLast?_append
      cases hrl : r.rows.getLast? with
      | none => exact hne ((List.getLast?_eq_none_iff).mp hrl)
      | some x =>
        rw [h5, hrl] at hlast
        simp only [Option.or_some, Option.some.injEq] at hlast
        have hx : x ∈ r.rows := List.mem_of_getLast?_eq_some hrl
        exact (hrR x hx).1 hlast
    rw [if_neg h4]

/-- C3 (amended): for extracted tables whose header cells are nonempty,
comma-free and newline-free and whose rows are nonempty and newline-free
(as the extraction produces for well-formed documents), differing header
vectors always make merge fail with HeaderMismatch, and identical header
vectors make it succeed with the merged text's lines being the shared
header line followed by table 1's rows then table 2's rows (so the merged
row count is the sum of the two tables' row counts).  The header
comparison is on the rendered header line, which cannot distinguish
vectors differing only by empty cells — hence the cell hypotheses. -/
theorem c3_merge_header_invariant (e r : CsvTable)
    (heC : ∀ c ∈ e.header, c ≠ [] ∧ (',' : Char) ∉ c ∧ ('\n' : Char) ∉ c)
    (hrC : ∀ c ∈ r.header, c ≠ [] ∧ (',' : Char) ∉ c ∧ ('\n' : Char) ∉ c)
    (heR : ∀ row ∈ e.rows, row ≠ [] ∧ ('\n' : Char) ∉ row)
    (hrR : ∀ row ∈ r.rows, row ≠ [] ∧ ('\n' : Char) ∉ row) :
    (e.header ≠ r.header → merge_tables e r = .error .headerMismatch) ∧
    (e.header = r.header →
      merge_tables e r = .ok (csvOf e ++ joinNlCL r.rows) ∧
      rustLinesCL (csvOf e ++ joinNlCL r.rows) =
        headerLineCL e.header :: (e.rows ++ r.rows)) := by
  have hhe : ('\n' : Char) ∉ headerLineCL e.header := by
    rw [headerLine_eq_joinCs e.header (fun x hx => (heC x hx).1)]
    intro hmem
    rcases mem_joinCs '\n' e.header hmem with h | h | ⟨x, hx, hcx⟩
    · exact absurd h (by decide)
    · exact absurd h (by decide)
    · exact (heC x hx).2.2 hcx
  have hhr : ('\n' : Char) ∉ headerLineCL r.header := by
    rw [headerLine_eq_joinCs r.header (fun x hx => (hrC x hx).1)]
    intro hmem
    rcases mem_joinCs '\n' r.header hmem with h | h | ⟨x, hx, hcx⟩
    · exact absurd h (by decide)
    · exact absurd h (by decide)
    · exact (hrC x hx).2.2 hcx
  have hle := rustLines_csvOf e hhe (fun x hx => (heR x hx).2)
  have hlr := rustLines_csvOf r hhr (fun x hx => (hrR x hx).2)
  constructor
  · intro hne
    have hlineNe : headerLineCL e.header ≠ headerLineCL r.header := by
      intro hline
      rw [headerLine_eq_joinCs e.header (fun x hx => (heC x hx).1),
        headerLine_eq_joinCs r.header (fun x hx => (hrC x hx).1)] at hline
      exact hne (joinCs_inj e.header r.header
        (fun x hx => ⟨(heC x hx).1, (heC x hx).2.1⟩)
        (fun x hx => ⟨(hrC x hx).1, (hrC x hx).2.1⟩) hline)
    unfold merge_tables
    rw [if_neg]
    intro hhead
    rw [hle, hlr] at hhead
    simp only [List.head?_cons, Option.some.injEq] at hhead
    exact hlineNe hhead
  · intro hEq
    have hcond : (rustLinesCL (csvOf e)).head? = (rustLinesCL (csvOf r)).head? := by
      rw [hle, hlr, hEq]
      simp
    constructor
    · unfold merge_tables
      rw [if_pos hcond, hlr]
      simp
    · exact rustLines_merged e r hhe (fun x hx => (heR x hx).2) hrR

/-- Witness for C3 with two concrete equal-header tables. -/
theorem c3_merge_header_invariant_witness :
    merge_tables ⟨[['A']], [['x']]⟩ ⟨[['A']], [['y']]⟩ =
      .ok "A\nx\ny".toList ∧
    rustLinesCL "A\nx\ny".toList = [['A'], ['x'], ['y']] := by
  have h := (c3_merge_header_invariant ⟨[['A']], [['x']]⟩ ⟨[['A']], [['y']]⟩
    (by decide) (by decide) (by decide) (by decide)).2 (by decide)
  constructor
  · rw [h.1]; decide
  · have h2 := h.2
    rw [show csvOf ⟨[['A']], [['x']]⟩ ++ joinNlCL [['y']] =
      "A\nx\ny".toList by decide] at h2
    rw [h2]; decide

/-- C3 counterexample: two extracted tables whose header vectors differ
(an empty leading header cell against none) merge successfully, because
the assert compares rendered header lines, not vectors. -/
theorem c3_empty_header_cell_merge_succeeds :
    merge_tables ⟨[[], ['A']], [['x']]⟩ ⟨[['A']], [['y']]⟩ =
      .ok "A\nx\ny".toList ∧
    ([[], ['A']] : List (List Char)) ≠ [['A']] := by
  constructor
  · decide
  · decide

/-! ## C4: order invariance of the generator -/

theorem charToNat_inj {a b : Char} (h : a.toNat = b.toNat) : a = b := by
  apply Char.eq_of_val_eq
  exact UInt32.toNat.inj h

theorem cmpCL_refl (a : List Char) : cmpCL a a = .eq := by
  induction a with
  | nil => rfl
  | cons c rest ih => simp [cmpCL, ih]

theorem cmpCL_eq_iff (a b : List Char) : cmpCL a b = .eq ↔ a = b := by
  constructor
  · intro h
    induction a generalizing b with
    | nil =>
      cases b with
      | nil => rfl
      | cons d bs => simp [cmpCL] at h
    | cons c rest ih =>
      cases b with
      | nil => simp [cmpCL] at h
      | cons d bs =>
        by_cases h1 : c.toNat < d.toNat
        · simp [cmpCL, h1] at h
        · by_cases h2 : d.toNat < c.toNat
          · simp [cmpCL, h1, h2] at h
          · have hcd : c = d := charToNat_inj (by omega)
            simp only [cmpCL, if_neg h1, if_neg h2] at h
            rw [hcd, ih bs h]
  · intro h
    rw [h]
    exact cmpCL_refl b

theorem cmpCL_swap_lt (a b : List Char) :
    cmpCL a b = .lt ↔ cmpCL b a = .gt := by
  induction a generalizing b with
  | nil =>
    cases b with
    | nil => simp [cmpCL]
    | cons d bs => simp [cmpCL]
  | cons c rest ih =>
    cases b with
    | nil => simp [cmpCL]
    | cons d bs =>
      by_cases h1 : c.toNat < d.toNat
      · have h2 : ¬ d.toNat < c.toNat := by omega
        simp [cmpCL, h1, h2]
      · by_cases h2 : d.toNat < c.toNat
        · simp [cmpCL, h1, h2]
        · simp [cmpCL, h1, h2, ih bs]

theorem cmpCL_gt_of_lt {a b : List Char} (h : cmpCL a b = .lt) :
    cmpCL b a = .gt := (cmpCL_swap_lt a b).mp h

theorem cmpCL_lt_of_gt {a b : List Char} (h : cmpCL a b = .gt) :
    cmpCL b a = .lt := (cmpCL_swap_lt b a).mpr h

theorem cmpCL_lt_trans {a b c : List Char} (h1 : cmpCL a b = .lt)
    (h2 : cmpCL b c = .lt) : cmpCL a c = .lt := by
  induction a generalizing b c with
  | nil =>
    cases b with
    | nil => simp [cmpCL] at h1
    | cons cb bs =>
      cases c with
      | nil => simp [cmpCL] at h2
      | cons cc cs => simp [cmpCL]
  | cons ca as ih =>
    cases b with
    | nil => simp [cmpCL] at h1
    | cons cb bs =>
      cases c with
      | nil => simp [cmpCL] at h2
      | cons cc cs =>
        by_cases hab : ca.toNat < cb.toNat <;>
          by_cases hbc : cb.toNat < cc.toNat
        · have : ca.toNat < cc.toNat := by omega
          simp [cmpCL, this]
        · by_cases hcb : cc.toNat < cb.toNat
          · simp [cmpCL, hbc, hcb] at h2
          · have hb : cb = cc := charToNat_inj (by omega)
            have : ca.toNat < cc.toNat := by omega
            simp [cmpCL, this]
        · by_cases hba : cb.toNat < ca.toNat
          · simp [cmpCL, hab, hba] at h1
          · have : ca.toNat < cc.toNat := by omega
            simp [cmpCL, this]
        · by_cases hba : cb.toNat < ca.toNat
          · simp [cmpCL, hab, hba] at h1
          · by_cases hcb : cc.toNat < cb.toNat
            · simp [cmpCL, hbc, hcb] at h2
            · have hac : ¬ ca.toNat < cc.toNat := by omega
              have hca : ¬ cc.toNat < ca.toNat := by omega
              simp only [cmpCL, if_neg hab, if_neg hba] at h1
              simp only [cmpCL, if_neg hbc, if_neg hcb] at h2
              simp only [cmpCL, if_neg hac, if_neg hca]
              exact ih h1 h2

theorem strEq_of_cmp {k k' : String}
    (h : cmpCL (strChars k) (strChars k') = .eq) : k = k' :=
  String.ext ((cmpCL_eq_iff _ _).mp h)

theorem tmGet?_tmInsert_same {α : Type} (k : String) (v : α)
    (m : List (String × α)) : tmGet? (tmInsert k v m) k = some v := by
  induction m with
  | nil => simp [tmInsert, tmGet?, List.find?]
  | cons p rest ih =>
    obtain ⟨k', v'⟩ := p
    cases hc : cmpCL (strChars k) (strChars k') with
    | lt => simp [tmInsert, hc, tmGet?, List.find?]
    | eq => simp [tmInsert, hc, tmGet?, List.find?]
    | gt =>
      have hne : ¬ (k' = k) := by
        intro he
        rw [he, cmpCL_refl] at hc
        cases hc
      simp only [tmInsert, hc]
      simp only [tmGet?, List.find?] at ih ⊢
      simp [hne, ih]

theorem tmGet?_tmInsert_other {α : Type} (k k' : String) (v : α)
    (m : List (String × α)) (h : k' ≠ k) :
    tmGet? (tmInsert k v m) k' = tmGet? m k' := by
  have hne : ¬ k = k' := fun hh => h hh.symm
  induction m with
  | nil => simp [tmInsert, tmGet?, List.find?, hne]
  | cons p rest ih =>
    obtain ⟨k'', v''⟩ := p
    cases hc : cmpCL (strChars k) (strChars k'') with
    | lt => simp [tmInsert, hc, tmGet?, List.find?, hne]
    | eq =>
      have hk : k = k'' := strEq_of_cmp hc
      have hne2 : ¬ k'' = k' := fun hh => hne (hk.trans hh)
      simp [tmInsert, hc, tmGet?, List.find?, hne, hne2]
    | gt =>
      simp only [tmInsert, hc]
      simp only [tmGet?, List.find?] at ih ⊢
      by_cases h2 : k'' = k' <;> simp [h2, ih, hne]

theorem tmInsert_tmInsert_same {α : Type} (k : String) (v1 v2 : α)
    (m : List (String × α)) :
    tmInsert k v2 (tmInsert k v1 m) = tmInsert k v2 m := by
  induction m with
  | nil => simp [tmInsert, cmpCL_refl]
  | cons p rest ih =>
    obtain ⟨k', v'⟩ := p
    cases hc : cmpCL (strChars k) (strChars k') with
    | lt => simp [tmInsert, hc, cmpCL_refl]
    | eq => simp [tmInsert, hc, cmpCL_refl]
    | gt => simp [tmInsert, hc, ih]

theorem tmInsert_comm {α : Type} (k1 k2 : String) (v1 v2 : α)
    (h : k1 ≠ k2) (m : List (String × α)) :
    tmInsert k1 v1 (tmInsert k2 v2 m) = tmInsert k2 v2 (tmInsert k1 v1 m) := by
  have hne12 : cmpCL (strChars k1) (strChars k2) ≠ .eq :=
    fun hc => h (strEq_of_cmp hc)
  induction m with
  | nil =>
    cases h12 : cmpCL (strChars k1) (strChars k2) with
    | lt => simp [tmInsert, h12, cmpCL_gt_of_lt h12]
    | eq => exact absurd h12 hne12
    | gt => simp [tmInsert, h12, cmpCL_lt_of_gt h12]
  | cons p rest ih =>
    obtain ⟨k', v'⟩ := p
    cases h2 : cmpCL (strChars k2) (strChars k') with
    | lt =>
      cases h12 : cmpCL (strChars k1) (strChars k2) with
      | lt =>
        have h1 : cmpCL (strChars k1) (strChars k') = .lt :=
          cmpCL_lt_trans h12 h2
        simp [tmInsert, h2, h12, h1, cmpCL_gt_of_lt h12]
      | eq => exact absurd h12 hne12
      | gt =>
        have h21 : cmpCL (strChars k2) (strChars k1) = .lt :=
          cmpCL_lt_of_gt h12
        cases h1 : cmpCL (strChars k1) (strChars k') with
        | lt => simp [tmInsert, h2, h12, h21, h1]
        | eq => simp [tmInsert, h2, h12, h21, h1]
        | gt => simp [tmInsert, h2, h12, h21, h1]
    | eq =>
      have hk2k' : k2 = k' := strEq_of_cmp h2
      cases h12 : cmpCL (strChars k1) (strChars k2) with
      | lt =>
        have h1 : cmpCL (strChars k1) (strChars k') = .lt := by
          rw [← hk2k']; exact h12
        simp [tmInsert, h2, h12, h1, cmpCL_gt_of_lt h12]
      | eq => exact absurd h12 hne12
      | gt =>
        have h1 : cmpCL (strChars k1) (strChars k') = .gt := by
          rw [← hk2k']; exact h12
        simp [tmInsert, h2, h12, h1, cmpCL_lt_of_gt h12]
    | gt =>
      cases h1 : cmpCL (strChars k1) (strChars k') with
      | lt =>
        have h12 : cmpCL (strChars k1) (strChars k2) = .lt :=
          cmpCL_lt_trans h1 (cmpCL_lt_of_gt h2)
        simp [tmInsert, h2, h1, h12, cmpCL_gt_of_lt h12]
      | eq =>
        have hk1k' : k1 = k' := strEq_of_cmp h1
        have h21 : cmpCL (strChars k2) (strChars k1) = .gt := by
          rw [hk1k']; exact h2
        simp [tmInsert, h2, h1, h21]
      | gt =>
        simp only [tmInsert, h2, h1]
        rw [ih]

theorem foldl_single_comm {β α1 α2 : Type} (s1 : β → α1 → β) (s2 : β → α2 → β)
    (hcomm : ∀ M r1 r2, s1 (s2 M r2) r1 = s2 (s1 M r1) r2)
    (r : α1) (l2 : List α2) (M : β) :
    s1 (l2.foldl s2 M) r = l2.foldl s2 (s1 M r) := by
  induction l2 generalizing M with
  | nil => rfl
  | cons x xs ih =>
    simp only [List.foldl]
    rw [ih (s2 M x), hcomm]

theorem foldl_foldl_comm {β α1 α2 : Type} (s1 : β → α1 → β) (s2 : β → α2 → β)
    (hcomm : ∀ M r1 r2, s1 (s2 M r2) r1 = s2 (s1 M r1) r2)
    (l1 : List α1) (l2 : List α2) (M : β) :
    l1.foldl s1 (l2.foldl s2 M) = l2.foldl s2 (l1.foldl s1 M) := by
  induction l1 generalizing M with
  | nil => rfl
  | cons r1 t1 ih =>
    simp only [List.foldl]
    rw [foldl_single_comm s1 s2 hcomm r1 l2 M, ih]

theorem rowStepM_comm (m1 m2 : String) (h : m1 ≠ m2)
    (M : MidMap) (r2 r1 : ControlTableData) :
    rowStepM m1 (rowStepM m2 M r2) r1 = rowStepM m2 (rowStepM m1 M r1) r2 := by
  cases h1 : r1.data_name with
  | none =>
    cases h2 : r2.data_name with
    | none => simp [rowStepM, h1, h2]
    | some n2 => simp [rowStepM, h1, h2]
  | some n1 =>
    cases h2 : r2.data_name with
    | none => simp [rowStepM, h1, h2]
    | some n2 =>
      simp only [rowStepM, h1, h2]
      rw [tmGet?_tmInsert_other m2 m1 _ M h,
        tmGet?_tmInsert_other m1 m2 _ M (fun hh => h hh.symm),
        tmInsert_comm m1 m2 _ _ h]

theorem rowfold_split (model : String) (rows : List ControlTableData) :
    ∀ (m : MidMap) (ns : List String),
      rows.foldl (rowStep model) (m, ns) =
        (rows.foldl (rowStepM model) m,
         ns ++ rows.filterMap (fun row => row.data_name.map sanitizeName)) := by
  induction rows with
  | nil => intro m ns; simp
  | cons r t ih =>
    intro m ns
    cases hd : r.data_name with
    | none =>
      simp only [List.foldl, List.filterMap]
      rw [show rowStep model (m, ns) r = (m, ns) by simp [rowStep, hd],
        show rowStepM model m r = m by simp [rowStepM, hd], hd]
      exact ih m ns
    | some n =>
      simp only [List.foldl, List.filterMap]
      rw [show rowStep model (m, ns) r =
        (tmInsert model (tmInsert (sanitizeName n) r
          ((tmGet? m model).getD [])) m, ns ++ [sanitizeName n]) by
          simp [rowStep, hd],
        show rowStepM model m r =
        tmInsert model (tmInsert (sanitizeName n) r
          ((tmGet? m model).getD [])) m by simp [rowStepM, hd], hd]
      rw [ih]
      simp

theorem aggStep_eq (d : Actuator) (A : OuterMap) (ns : List String)
    (model : String) (hm : deviceModel d = .ok model) :
    aggStep (A, ns) d = .ok (devStepM A d, ns ++ deviceNames d) := by
  unfold aggStep devStepM deviceNames
  rw [hm]
  simp only [bind, Except.bind, pure, Except.pure]
  rw [rowfold_split]

theorem aggregate_split (l : List Actuator) :
    ∀ (A : OuterMap) (ns : List String),
      (∀ d ∈ l, (deviceModel d).isOk = true) →
      l.foldlM aggStep (A, ns) =
        .ok (l.foldl devStepM A, ns ++ (l.map deviceNames).flatten) := by
  induction l with
  | nil => intro A ns _; simp [List.foldlM, pure, Except.pure]
  | cons d t ih =>
    intro A ns hok
    have hd := hok d (by simp)
    cases hm : deviceModel d with
    | error e => rw [hm] at hd; simp [Except.isOk, Except.toBool] at hd
    | ok model =>
      simp only [List.foldlM]
      rw [aggStep_eq d A ns model hm]
      simp only [bind, Except.bind]
      rw [ih (devStepM A d) (ns ++ deviceNames d)
        (fun x hx => hok x (List.mem_cons_of_mem d hx))]
      simp

theorem devStepM_comm (d1 d2 : Actuator)
    (h : deviceKeyOpt d1 ≠ deviceKeyOpt d2) (A : OuterMap) :
    devStepM (devStepM A d1) d2 = devStepM (devStepM A d2) d1 := by
  cases hm1 : deviceModel d1 with
  | error e1 =>
    simp [devStepM, hm1]
  | ok m1 =>
    cases hm2 : deviceModel d2 with
    | error e2 => simp [devStepM, hm1, hm2]
    | ok m2 =>
      have hk : (upperStr d1.series, m1) ≠ (upperStr d2.series, m2) := by
        intro he
        apply h
        unfold deviceKeyOpt
        rw [hm1, hm2]
        simp only [Option.some.injEq]
        exact he
      by_cases hs : upperStr d1.series = upperStr d2.series
      · have hmne : m1 ≠ m2 := by
          intro hmeq
          exact hk (by rw [hs, hmeq])
        simp only [devStepM, hm1, hm2]
        rw [← hs]
        rw [tmGet?_tmInsert_same, tmGet?_tmInsert_same]
        rw [tmInsert_tmInsert_same, tmInsert_tmInsert_same]
        simp only [Option.getD_some]
        rw [foldl_foldl_comm (rowStepM m2) (rowStepM m1)
          (fun M r1 r2 => rowStepM_comm m2 m1 (fun hh => hmne hh.symm) M r2 r1)
          d2.data d1.data]
      · simp only [devStepM, hm1, hm2]
        rw [tmGet?_tmInsert_other _ _ _ A (fun hh => hs hh.symm),
          tmGet?_tmInsert_other _ _ _ A hs,
          tmInsert_comm _ _ _ _ (fun hh => hs hh.symm) A]

theorem strLeB_total (a b : String) : (strLeB a b || strLeB b a) = true := by
  unfold strLeB
  cases hc : cmpCL (strChars a) (strChars b) with
  | lt => rw [cmpCL_gt_of_lt hc]; rfl
  | eq => simp
  | gt => rw [cmpCL_lt_of_gt hc]; rfl

theorem strLeB_trans (a b c : String) (h1 : strLeB a b = true)
    (h2 : strLeB b c = true) : strLeB a c = true := by
  unfold strLeB at *
  cases hab : cmpCL (strChars a) (strChars b) with
  | gt => rw [hab] at h1; cases h1
  | eq =>
    have : a = b := strEq_of_cmp hab
    rw [this]
    exact h2
  | lt =>
    cases hbc : cmpCL (strChars b) (strChars c) with
    | gt => rw [hbc] at h2; cases h2
    | eq =>
      have : b = c := strEq_of_cmp hbc
      rw [← this, hab]
    | lt => rw [cmpCL_lt_trans hab hbc]

theorem strLeB_antisymm (a b : String) (h1 : strLeB a b = true)
    (h2 : strLeB b a = true) : a = b := by
  unfold strLeB at h1 h2
  cases hab : cmpCL (strChars a) (strChars b) with
  | eq => exact strEq_of_cmp hab
  | lt => rw [cmpCL_gt_of_lt hab] at h2; cases h2
  | gt => rw [hab] at h1; cases h1

theorem sortLe_str_eq_of_perm (ns1 ns2 : List String) (hp : ns1.Perm ns2) :
    sortLe strLeB ns1 = sortLe strLeB ns2 := by
  have hanti : IsAntisymm String (fun a b => strLeB a b = true) :=
    ⟨fun a b => strLeB_antisymm a b⟩
  exact @List.eq_of_perm_of_sorted String (fun a b => strLeB a b = true) hanti
    _ _ ((sortLe_perm _ ns1).trans (hp.trans (sortLe_perm _ ns2).symm))
    (pairwise_sortLe strLeB_total (fun a b c => strLeB_trans a b c) ns1)
    (pairwise_sortLe strLeB_total (fun a b c => strLeB_trans a b c) ns2)

/-- The generated texts depend on the raw data-name list only through its
sorted form. -/
theorem renderOut_names_congr (A : OuterMap) (ns1 ns2 : List String)
    (h : sortLe strLeB ns1 = sortLe strLeB ns2) :
    renderOut (A, ns1) = renderOut (A, ns2) := by
  unfold renderOut
  rw [h]

/-- C4 (amended): create_lib is a pure function, so two runs on the same
device sequence give identical text; moreover, when distinct devices have
distinct derived (series, model) keys, permuting the input devices leaves
both generated texts byte-identical.  (The counterexample shows the claim
fails without the distinct-key condition: two devices colliding on the
same key are resolved last-write-wins, so their relative order shows in
the output.) -/
theorem c4_generator_order_invariant (l l' : List Actuator)
    (hperm : l.Perm l')
    (hok : ∀ d ∈ l, (deviceModel d).isOk = true)
    (hkeys : l.Pairwise (fun a b => deviceKeyOpt a ≠ deviceKeyOpt b)) :
    createLib l = createLib l' := by
  have hok' : ∀ d ∈ l', (deviceModel d).isOk = true :=
    fun d hd => hok d (hperm.mem_iff.mpr hd)
  unfold createLib aggregate
  rw [aggregate_split l [] [] hok, aggregate_split l' [] [] hok']
  have hmap : l.foldl devStepM [] = l'.foldl devStepM [] := by
    apply List.Perm.foldl_eq' hperm
    intro x hx y hy A
    by_cases hxy : x = y
    · rw [hxy]
    · have hk := hkeys.forall
        (fun a b (hab : deviceKeyOpt a ≠ deviceKeyOpt b) => hab.symm) hx hy hxy
      exact (devStepM_comm y x (fun hh => hk hh.symm) A).symm
  have hnames : sortLe strLeB ((l.map deviceNames).flatten) =
      sortLe strLeB ((l'.map deviceNames).flatten) :=
    sortLe_str_eq_of_perm _ _ (List.Perm.flatten (hperm.map deviceNames))
  rw [hmap]
  simp only [Except.map, List.nil_append]
  rw [renderOut_names_congr (l'.foldl devStepM [])
    ((l.map deviceNames).flatten) ((l'.map deviceNames).flatten)
    (by simpa using hnames)]

/-- Witness for C4: two devices with distinct keys, in both orders. -/
theorem c4_generator_order_invariant_witness :
    createLib [devC, devD] = createLib [devD, devC] :=
  c4_generator_order_invariant [devC, devD] [devD, devC]
    (by decide) (by decide) (by decide)

set_option maxRecDepth 40000 in
/-- C4 counterexample: with two devices colliding on the derived key
(series AX, model AX12A) and disagreeing on the record of field Foo, the
two input orders generate different library text; the differing region is
the Foo match arm. -/
theorem c4_order_dependent_on_model_collision :
    createLib [devA, devB] ≠ createLib [devB, devA] := by
  intro h
  have h2 : libTail (createLib [devA, devB]) = libTail (createLib [devB, devA]) :=
    congrArg libTail h
  have h3 : libTail (createLib [devA, devB]) ≠
      libTail (createLib [devB, devA]) := by decide
  exact h3 h2
